import Mathlib

/-!
Shallow embedding of the TCP text-analysis servers (`tcp_server.py` and
`tcp_server_V2.py`): the pure analysis functions, the per-connection
handler pipeline of each server (modelled as a pure function from the
received payload to the reply sent and the log records appended), and an
interleaving model of the lock-protected log writer shared by the worker
pool.  Text is modelled as `List Char`; the ASCII character classes and
case folding mirror the Python predicates used by the code.
-/

namespace TCPServerModel

/-- Model of Python `str.isspace` on the characters the servers handle:
ASCII whitespace (tab, LF, VT, FF, CR, space). -/
def pyIsSpace (c : Char) : Bool :=
  c.toNat = 32 || c.toNat = 9 || c.toNat = 10 || c.toNat = 11 || c.toNat = 12 || c.toNat = 13

/-- Model of Python `str.isalpha` on a single character: ASCII letters. -/
def pyIsAlpha (c : Char) : Bool :=
  (65 ≤ c.toNat && c.toNat ≤ 90) || (97 ≤ c.toNat && c.toNat ≤ 122)

/-- Model of Python `str.lower` on a single character: case-fold ASCII
upper-case letters, leave everything else unchanged. -/
def pyLower (c : Char) : Char :=
  if 65 ≤ c.toNat ∧ c.toNat ≤ 90 then Char.ofNat (c.toNat + 32) else c

/-- Python `text.lower()`, character by character. -/
def pyLowerStr (s : List Char) : List Char := s.map pyLower

/-- Python `str.strip()`: remove whitespace from both ends. -/
def pyStrip (s : List Char) : List Char :=
  ((s.dropWhile pyIsSpace).reverse.dropWhile pyIsSpace).reverse

/-- The one-line reply sent back to the client: either an `ERROR: ...`
line or the numeric count. -/
inductive Reply where
  | error (msg : String)
  | count (n : Nat)
  deriving DecidableEq

/-! ## tcp_server.py (LastChar mode) -/

/-- TCPServer.count_last_character: 0 on the empty string, otherwise the
number of occurrences of the case-folded last character in the
case-folded text. -/
def count_last_character (text : List Char) : Nat :=
  match text.getLast? with
  | none => 0
  | some c => (pyLowerStr text).count (pyLower c)

/-- TCPServer.validate_text: Python `text.isalpha()` — non-empty and all
characters alphabetic. -/
def validate_text (text : List Char) : Bool :=
  !text.isEmpty && text.all pyIsAlpha

/-- TCPServer.handle_client as a pure function from the received payload
(already decoded) to the reply sent: strip, reject empty data, reject
non-alphabetic data, otherwise reply with the last-character count. -/
def handle_client (raw : List Char) : Reply :=
  let data := pyStrip raw
  if data.isEmpty then Reply.error "ERROR: No se recibieron datos"
  else if !validate_text data then
    Reply.error "ERROR: El mensaje debe contener solo caracteres alfabéticos"
  else Reply.count (count_last_character data)

/-! ## tcp_server_V2.py (LastVowelWithPrimeCheck mode) -/

/-- The vowel set `set('aeiouAEIOU')` of TCPServerEnhanced. -/
def vowels : List Char := ['a', 'e', 'i', 'o', 'u', 'A', 'E', 'I', 'O', 'U']

/-- TCPServerEnhanced.find_last_vowel: scan the text from the right and
return the first vowel found, case-folded; none when no vowel exists. -/
def find_last_vowel (text : List Char) : Option Char :=
  match text.reverse.find? (fun c => vowels.contains c) with
  | some c => some (pyLower c)
  | none => none

/-- TCPServerEnhanced.count_vowel_occurrences: 0 when the vowel is absent
(None), otherwise the case-insensitive occurrence count. -/
def count_vowel_occurrences (text : List Char) (vowel : Option Char) : Nat :=
  match vowel with
  | none => 0
  | some v => (pyLowerStr text).count (pyLower v)

/-- Integer square root, modelling Python `int(n ** 0.5)`: the largest k
with k * k ≤ n.  Written as an executable enumeration so that the kernel
can evaluate it; proved equal to `Nat.sqrt` below. -/
def isqrt (n : Nat) : Nat :=
  ((List.range (n + 1)).filter (fun k => decide (k * k ≤ n))).length - 1

/-- TCPServerEnhanced.is_prime: trial division by the odd numbers
3, 5, ... up to the integer square root of n.  Python iterates over
`range(3, int(n ** 0.5) + 1, 2)`, whose elements are
`List.range' 3 ((isqrt n - 1) / 2) 2`. -/
def is_prime (n : Nat) : Bool :=
  if n < 2 then false
  else if n = 2 then true
  else if n % 2 = 0 then false
  else (List.range' 3 ((isqrt n - 1) / 2) 2).all (fun i => n % i != 0)

/-- TCPServerEnhanced.validate_text: every character is a letter or a
space (vacuously true on the empty string, exactly as Python `all`). -/
def validate_text_v2 (text : List Char) : Bool :=
  text.all (fun c => pyIsAlpha c || pyIsSpace c)

/-- One record of the result file, as assembled by save_to_log. -/
structure LogRecord where
  timestamp : String
  message : List Char
  count : Nat
  is_prime_result : String
  last_vowel : Char
  deriving DecidableEq

/-- The lines one call of save_to_log appends to the log file. -/
def renderRecord (r : LogRecord) : List String :=
  ["Fecha: " ++ r.timestamp,
   "Mensaje: " ++ String.mk r.message,
   "Última vocal: " ++ String.mk [r.last_vowel],
   "Repeticiones: " ++ toString r.count,
   "¿Es primo?: " ++ r.is_prime_result,
   String.mk (List.replicate 80 '-'),
   ""]

/-- The banner header _initialize_log_file writes when the file is absent. -/
def logHeader : List String :=
  [String.mk (List.replicate 80 '='),
   "REGISTRO DE MENSAJES TCP - SERVIDOR DE CONTEO DE VOCALES",
   String.mk (List.replicate 80 '='),
   ""]

/-- TCPServerEnhanced.handle_client as a pure function from the received
payload to the reply sent and the list of log records appended (empty on
every error branch, a singleton on success). -/
def handle_client_v2 (timestamp : String) (raw : List Char) :
    Reply × List LogRecord :=
  let data := pyStrip raw
  if data.isEmpty then (Reply.error "ERROR: No se recibieron datos", [])
  else if !validate_text_v2 data then
    (Reply.error "ERROR: El mensaje debe contener solo letras y espacios", [])
  else if (pyStrip data).isEmpty then
    (Reply.error "ERROR: El mensaje no puede estar vacío o contener solo espacios", [])
  else
    match find_last_vowel data with
    | none => (Reply.error "ERROR: El mensaje debe contener al menos una vocal", [])
    | some v =>
      let count := count_vowel_occurrences data (some v)
      let is_prime_result := if is_prime count then "SI" else "NO"
      (Reply.count count, [⟨timestamp, data, count, is_prime_result, v⟩])

/-! ## Interleaving model of the lock-protected log writer

Each worker that reaches save_to_log runs, concurrently with the others,
the program: acquire `file_lock`; append its record's lines one write at
a time; release the lock.  The `with self.file_lock` block is modelled by
a step relation on a global state: each worker is idle (before the
acquire), writing (holding the lock, with the lines still to append), or
done (after the release).  `acquire` fires only when no one holds the
lock; `write` appends one line of the holder's block to the shared file;
`release` frees the lock once the block is exhausted. -/

/-- Status of one worker with respect to the log writer. -/
inductive TStatus where
  | idle
  | writing (rem : List String)
  | done
  deriving DecidableEq

/-- Global state shared by the N workers: the log file (a list of lines),
the holder of `file_lock` (if any), and each worker's status. -/
structure PoolState (N : Nat) where
  file : List String
  lock : Option (Fin N)
  st : Fin N → TStatus

/-- One interleaving step of the workers, where worker i's block of lines
is `b i`. -/
inductive PoolStep {N : Nat} (b : Fin N → List String) :
    PoolState N → PoolState N → Prop where
  | acquire (s : PoolState N) (i : Fin N)
      (hst : s.st i = TStatus.idle) (hlk : s.lock = none) :
      PoolStep b s ⟨s.file, some i, Function.update s.st i (TStatus.writing (b i))⟩
  | write (s : PoolState N) (i : Fin N) (l : String) (rest : List String)
      (hst : s.st i = TStatus.writing (l :: rest)) :
      PoolStep b s ⟨s.file ++ [l], s.lock, Function.update s.st i (TStatus.writing rest)⟩
  | release (s : PoolState N) (i : Fin N)
      (hst : s.st i = TStatus.writing []) :
      PoolStep b s ⟨s.file, none, Function.update s.st i TStatus.done⟩

/-- Initial state: the file holds only the banner header, the lock is
free, every worker still has its whole append ahead of it. -/
def initPool (N : Nat) : PoolState N :=
  ⟨logHeader, none, fun _ => TStatus.idle⟩

/-- Worker i currently holds the lock and is writing. -/
def writingAt {N : Nat} (s : PoolState N) (i : Fin N) : Prop :=
  ∃ rem, s.st i = TStatus.writing rem

/-- Invariant of the writer model: exactly the lock holder is in writing
state, and the file is the header, followed by the complete blocks of the
finished workers in some order, followed by the written part of the
holder's block. -/
def PoolInv {N : Nat} (b : Fin N → List String) (s : PoolState N) : Prop :=
  (∀ i, writingAt s i ↔ s.lock = some i) ∧
  ∃ ds : List (Fin N), ds.Nodup ∧ (∀ i, s.st i = TStatus.done ↔ i ∈ ds) ∧
    (match s.lock with
     | none => s.file = logHeader ++ (ds.map b).flatten
     | some i => ∃ w rem, s.st i = TStatus.writing rem ∧ b i = w ++ rem ∧
         s.file = logHeader ++ (ds.map b).flatten ++ w)

/-- Two concrete client messages, used to exercise the model. -/
def wmsg : Fin 2 → List Char :=
  fun i => if i = 0 then "hola".toList else "banana".toList

/-- The records the two concrete messages produce. -/
def wrec : Fin 2 → LogRecord :=
  fun i => if i = 0 then ⟨"t", "hola".toList, 1, "NO", 'a'⟩
           else ⟨"t", "banana".toList, 3, "SI", 'a'⟩

/-- The counts the two concrete messages produce. -/
def wcnt : Fin 2 → Nat := fun i => if i = 0 then 1 else 3

example : handle_client "hola".toList = Reply.count 1 := by decide
example : handle_client "banana".toList = Reply.count 3 := by decide
example : handle_client "reconocer".toList = Reply.count 2 := by decide
example : handle_client "test123".toList =
    Reply.error "ERROR: El mensaje debe contener solo caracteres alfabéticos" := by decide
example : (handle_client_v2 "t" "hello world".toList).1 = Reply.count 2 := by decide
example : (handle_client_v2 "t" "hola".toList).2 =
    [⟨"t", "hola".toList, 1, "NO", 'a'⟩] := by decide
example : is_prime 2 = true ∧ is_prime 9 = false ∧ is_prime 97 = true := by decide

/-! ## Helper lemmas about the character model and stripping -/

theorem pyIsAlpha_not_space {c : Char} (h : pyIsAlpha c = true) :
    pyIsSpace c = false := by
  simp only [pyIsAlpha, Bool.or_eq_true, Bool.and_eq_true, decide_eq_true_eq] at h
  simp only [pyIsSpace, Bool.or_eq_false_iff, decide_eq_false_iff_not]
  omega

theorem dropWhile_eq_self_of_not {α : Type} {p : α → Bool} {l : List α}
    (h : ∀ c ∈ l, p c = false) : l.dropWhile p = l := by
  cases l with
  | nil => rfl
  | cons a t =>
    exact List.dropWhile_cons_of_neg (by simp [h a (List.mem_cons_self a t)])

theorem pyStrip_eq_self_of_not_space {s : List Char}
    (h : ∀ c ∈ s, pyIsSpace c = false) : pyStrip s = s := by
  unfold pyStrip
  rw [dropWhile_eq_self_of_not h,
    dropWhile_eq_self_of_not (fun c hc => h c (List.mem_reverse.mp hc)),
    List.reverse_reverse]

theorem forall_dropWhile_iff {α : Type} {p : α → Bool} {l : List α} :
    (∀ x ∈ l.dropWhile p, p x = true) ↔ ∀ x ∈ l, p x = true := by
  induction l with
  | nil => simp
  | cons a t ih =>
    by_cases h : p a = true
    · rw [List.dropWhile_cons_of_pos h]
      simp only [List.mem_cons]
      constructor
      · rintro hall x (rfl | hx)
        · exact h
        · exact ih.mp hall x hx
      · intro hall x hx
        exact ih.mpr (fun y hy => hall y (Or.inr hy)) x hx
    · rw [List.dropWhile_cons_of_neg (by simp [h])]

theorem pyStrip_eq_nil_iff {s : List Char} :
    pyStrip s = [] ↔ ∀ c ∈ s, pyIsSpace c = true := by
  unfold pyStrip
  rw [List.reverse_eq_nil_iff, List.dropWhile_eq_nil_iff]
  simp only [List.mem_reverse]
  exact forall_dropWhile_iff

theorem dropWhile_append_of_ne_nil {α : Type} {p : α → Bool} {x w : List α}
    (h : x.dropWhile p ≠ []) : (x ++ w).dropWhile p = x.dropWhile p ++ w := by
  rw [List.dropWhile_append]
  simp [List.isEmpty_iff, h]

theorem pyStrip_pad {w1 w2 raw : List Char}
    (h1 : ∀ c ∈ w1, pyIsSpace c = true) (h2 : ∀ c ∈ w2, pyIsSpace c = true) :
    pyStrip (w1 ++ raw ++ w2) = pyStrip raw := by
  unfold pyStrip
  rw [List.append_assoc, List.dropWhile_append_of_pos h1]
  by_cases h : raw.dropWhile pyIsSpace = []
  · have hw2 : w2.dropWhile pyIsSpace = [] := List.dropWhile_eq_nil_iff.mpr h2
    rw [List.dropWhile_append, h]
    simp [hw2]
  · rw [dropWhile_append_of_ne_nil h, List.reverse_append,
      List.dropWhile_append_of_pos (fun c hc => h2 c (List.mem_reverse.mp hc))]

theorem exists_not_space_of_pyStrip_ne_nil {raw : List Char}
    (h : pyStrip raw ≠ []) : ∃ c, c ∈ pyStrip raw ∧ pyIsSpace c = false := by
  unfold pyStrip at *
  rcases hd : ((raw.dropWhile pyIsSpace).reverse.dropWhile pyIsSpace) with _ | ⟨d, t⟩
  · rw [hd] at h
    simp at h
  · have hpd : pyIsSpace d = false := by
      have hh := List.head?_dropWhile_not pyIsSpace (raw.dropWhile pyIsSpace).reverse
      rw [hd] at hh
      simpa using hh
    exact ⟨d, by simp, hpd⟩

theorem pyStrip_pyStrip_ne_nil {raw : List Char} (h : pyStrip raw ≠ []) :
    pyStrip (pyStrip raw) ≠ [] := by
  intro hc
  rcases exists_not_space_of_pyStrip_ne_nil h with ⟨c, hc1, hc2⟩
  have := pyStrip_eq_nil_iff.mp hc c hc1
  simp [this] at hc2

/-! ## C10 -/

/-- C10: count_last_character returns 0 on the empty string rather than
failing, while the handler already rejects an empty payload with the
no-data error before the counter is reached. -/
theorem count_last_character_nil_eq_zero :
    count_last_character [] = 0 ∧
    handle_client [] = Reply.error "ERROR: No se recibieron datos" :=
  ⟨rfl, rfl⟩

/-! ## C7 -/

/-- C7 counterexample: in LastChar mode the input "reconocer" is answered
with the count 2, not 3 — its last letter r occurs exactly twice. -/
theorem reconocer_count_is_two_not_three :
    handle_client "reconocer".toList = Reply.count 2 ∧
    handle_client "reconocer".toList ≠ Reply.count 3 := by decide

/-- C7 (amended): handling "reconocer" in LastChar mode selects the last
letter r and replies with the count 2. -/
theorem reconocer_selects_r_and_counts_two :
    (pyStrip "reconocer".toList).getLast? = some 'r' ∧
    count_last_character "reconocer".toList = 2 ∧
    handle_client "reconocer".toList = Reply.count 2 := by decide

/-! ## C8 -/

/-- C8 counterexample: for "hello world" in vowel mode the count is 2 and
is_prime 2 = true, so the recorded primality verdict is "SI" (prime) —
not "not prime" as the claim states. -/
theorem hello_world_verdict_is_prime :
    is_prime 2 = true ∧
    (handle_client_v2 "t" "hello world".toList).2 =
      [⟨"t", "hello world".toList, 2, "SI", 'o'⟩] := by decide

/-- C8 (amended): "hello world" fails LastChar validation (it contains a
space); in vowel mode the selected target is the last vowel o, the count
is 2, the verdict is prime (2 is prime), and the reply is the count 2. -/
theorem hello_world_both_modes :
    handle_client "hello world".toList =
      Reply.error "ERROR: El mensaje debe contener solo caracteres alfabéticos" ∧
    find_last_vowel "hello world".toList = some 'o' ∧
    count_vowel_occurrences "hello world".toList (some 'o') = 2 ∧
    is_prime 2 = true ∧
    handle_client_v2 "t" "hello world".toList =
      (Reply.count 2, [⟨"t", "hello world".toList, 2, "SI", 'o'⟩]) := by decide

/-! ## C3 -/

/-- C3: the vowel-mode handler appends exactly one log record when (and
only when) it replies with a numeric count, and appends no record on any
error branch. -/
theorem one_log_record_iff_success (ts : String) (raw : List Char) :
    (handle_client_v2 ts raw).2.length =
      (match (handle_client_v2 ts raw).1 with
       | Reply.count _ => 1
       | Reply.error _ => 0) := by
  unfold handle_client_v2
  dsimp only
  split
  · rfl
  · split
    · rfl
    · split
      · rfl
      · split
        · rfl
        · rfl

/-! ## C2 -/

/-- C2 counterexample: TCPServerEnhanced.validate_text returns true on
the empty string and on a whitespace-only string, where the claim says it
must return false; the trimmed-non-empty rejection is a separate check in
handle_client, not part of validate_text. -/
theorem validate_text_v2_true_on_empty_and_spaces :
    validate_text_v2 [] = true ∧ validate_text_v2 [' ', ' '] = true := by decide

/-- C2 (amended): in vowel mode validate_text is true iff every character
is alphabetic or whitespace — vacuously true on the empty string and on
whitespace-only strings; empty and whitespace-only payloads are instead
rejected by the handler, whose strip of the payload leaves nothing and
triggers the no-data error. -/
theorem validate_text_v2_characterization :
    (∀ t : List Char, validate_text_v2 t = true ↔
        ∀ c ∈ t, pyIsAlpha c = true ∨ pyIsSpace c = true) ∧
    (∀ (ts : String) (raw : List Char), (∀ c ∈ raw, pyIsSpace c = true) →
        handle_client_v2 ts raw =
          (Reply.error "ERROR: No se recibieron datos", [])) := by
  constructor
  · intro t
    simp [validate_text_v2, List.all_eq_true]
  · intro ts raw h
    have hnil : pyStrip raw = [] := pyStrip_eq_nil_iff.mpr h
    unfold handle_client_v2
    rw [hnil]
    rfl

/-- Witness for the amended C2 at concrete inputs. -/
theorem validate_text_v2_characterization_witness :
    (validate_text_v2 "a b".toList = true ↔
        ∀ c ∈ "a b".toList, pyIsAlpha c = true ∨ pyIsSpace c = true) ∧
    handle_client_v2 "t" [' ', ' '] =
      (Reply.error "ERROR: No se recibieron datos", []) :=
  ⟨validate_text_v2_characterization.1 "a b".toList,
   validate_text_v2_characterization.2 "t" [' ', ' '] (by decide)⟩

/-! ## C1 -/

/-- C1: for every non-empty all-alphabetic payload, the LastChar-mode
handler replies with exactly the number of occurrences of the case-folded
last character within the case-folded payload, and that number is at
least 1. -/
theorem lastchar_reply_counts_last_char (s : List Char) (hne : s ≠ [])
    (halpha : ∀ c ∈ s, pyIsAlpha c = true) :
    handle_client s =
      Reply.count ((pyLowerStr s).count (pyLower (s.getLast hne))) ∧
    1 ≤ (pyLowerStr s).count (pyLower (s.getLast hne)) := by
  have hstrip : pyStrip s = s :=
    pyStrip_eq_self_of_not_space (fun c hc => pyIsAlpha_not_space (halpha c hc))
  have hval : validate_text s = true := by
    unfold validate_text
    rw [List.isEmpty_eq_false.mpr hne]
    simp only [Bool.not_false, Bool.true_and, List.all_eq_true]
    exact halpha
  have hcount : count_last_character s =
      (pyLowerStr s).count (pyLower (s.getLast hne)) := by
    unfold count_last_character
    rw [List.getLast?_eq_getLast s hne]
  have hpos : 1 ≤ (pyLowerStr s).count (pyLower (s.getLast hne)) := by
    refine Nat.succ_le_of_lt (List.count_pos_iff.mpr ?_)
    exact List.mem_map.mpr ⟨s.getLast hne, List.getLast_mem hne, rfl⟩
  refine ⟨?_, hpos⟩
  unfold handle_client
  rw [hstrip]
  dsimp only
  simp [List.isEmpty_eq_false.mpr hne, hval, hcount]

/-- Witness for C1 at the payload "hola". -/
theorem lastchar_reply_counts_last_char_witness :
    handle_client "hola".toList =
      Reply.count ((pyLowerStr "hola".toList).count
        (pyLower ("hola".toList.getLast (by decide)))) ∧
    1 ≤ (pyLowerStr "hola".toList).count
        (pyLower ("hola".toList.getLast (by decide))) :=
  lastchar_reply_counts_last_char "hola".toList (by decide) (by decide)

/-! ## C9 -/

/-- C9: both handlers strip leading and trailing whitespace from the
payload before any validation or analysis, so padding a payload with
whitespace on either side leaves the reply — and in vowel mode also the
appended log records — unchanged. -/
theorem whitespace_padding_preserves_reply (ts : String)
    (raw w1 w2 : List Char)
    (h1 : ∀ c ∈ w1, pyIsSpace c = true) (h2 : ∀ c ∈ w2, pyIsSpace c = true) :
    handle_client (w1 ++ raw ++ w2) = handle_client raw ∧
    handle_client_v2 ts (w1 ++ raw ++ w2) = handle_client_v2 ts raw := by
  have hs : pyStrip (w1 ++ raw ++ w2) = pyStrip raw := pyStrip_pad h1 h2
  constructor
  · unfold handle_client
    rw [hs]
  · unfold handle_client_v2
    rw [hs]

/-- Witness for C9: a space before and a newline after "hola". -/
theorem whitespace_padding_preserves_reply_witness :
    handle_client ([' '] ++ "hola".toList ++ ['\n']) =
      handle_client "hola".toList ∧
    handle_client_v2 "t" ([' '] ++ "hola".toList ++ ['\n']) =
      handle_client_v2 "t" "hola".toList :=
  whitespace_padding_preserves_reply "t" "hola".toList [' '] ['\n']
    (by decide) (by decide)

/-! ## C6 -/

/-- C6: find_last_vowel returns none exactly when the text contains no
character of the vowel set (in either case), and a payload that passes
validation but has no vowel is answered with the no-vowel error and
appends no log record. -/
theorem no_vowel_error_and_no_record :
    (∀ t : List Char, find_last_vowel t = none ↔ ∀ c ∈ t, c ∉ vowels) ∧
    (∀ (ts : String) (raw : List Char), pyStrip raw ≠ [] →
      validate_text_v2 (pyStrip raw) = true →
      find_last_vowel (pyStrip raw) = none →
      handle_client_v2 ts raw =
        (Reply.error "ERROR: El mensaje debe contener al menos una vocal", [])) := by
  constructor
  · intro t
    unfold find_last_vowel
    rcases hf : t.reverse.find? (fun c => vowels.contains c) with _ | ⟨c⟩
    · rw [List.find?_eq_none] at hf
      simp only [true_iff]
      intro x hx
      simpa using hf x (List.mem_reverse.mpr hx)
    · have hc := List.find?_some hf
      have hmem := List.mem_reverse.mp (List.mem_of_find?_eq_some hf)
      simp only [List.contains_iff_exists_mem_beq, beq_iff_eq] at hc
      rcases hc with ⟨v, hv, rfl⟩
      simp only [reduceCtorEq, false_iff, not_forall]
      exact ⟨c, hmem, by simpa using hv⟩
  · intro ts raw hne hval hnov
    have h3 : pyStrip (pyStrip raw) ≠ [] := pyStrip_pyStrip_ne_nil hne
    unfold handle_client_v2
    dsimp only
    simp [List.isEmpty_eq_false.mpr hne, List.isEmpty_eq_false.mpr h3, hval,
      hnov]

/-- Witness for C6 at the vowel-free payload "xyz". -/
theorem no_vowel_error_and_no_record_witness :
    (find_last_vowel "xyz".toList = none ↔ ∀ c ∈ "xyz".toList, c ∉ vowels) ∧
    handle_client_v2 "t" "xyz".toList =
      (Reply.error "ERROR: El mensaje debe contener al menos una vocal", []) :=
  ⟨no_vowel_error_and_no_record.1 "xyz".toList,
   no_vowel_error_and_no_record.2 "t" "xyz".toList (by decide) (by decide)
     (by decide)⟩

/-! ## C5 -/

theorem isqrt_eq_sqrt (n : Nat) : isqrt n = Nat.sqrt n := by
  have hs : Nat.sqrt n ≤ n := Nat.sqrt_le_self n
  unfold isqrt
  have hsplit : n + 1 = (Nat.sqrt n + 1) + (n - Nat.sqrt n) := by omega
  rw [hsplit, List.range_add, List.filter_append, List.length_append]
  have h1 : (List.range (Nat.sqrt n + 1)).filter (fun k => decide (k * k ≤ n)) =
      List.range (Nat.sqrt n + 1) := by
    rw [List.filter_eq_self]
    intro a ha
    rw [List.mem_range] at ha
    exact decide_eq_true (Nat.le_sqrt.mp (by omega))
  have h2 : (((List.range (n - Nat.sqrt n)).map (Nat.sqrt n + 1 + ·)).filter
      (fun k => decide (k * k ≤ n))).length = 0 := by
    rw [List.length_eq_zero, List.filter_eq_nil_iff]
    intro a ha
    rw [List.mem_map] at ha
    rcases ha with ⟨x, _, rfl⟩
    simp only [decide_eq_true_eq]
    intro hle
    have := Nat.le_sqrt.mpr hle
    omega
  rw [h1, h2, List.length_range]
  omega

theorem is_prime_odd_divisor_iff {n : Nat} (h2 : 2 < n) (hodd : n % 2 = 1) :
    is_prime n = true ↔
      ∀ d, 3 ≤ d → d ≤ Nat.sqrt n → d % 2 = 1 → ¬ d ∣ n := by
  unfold is_prime
  rw [if_neg (by omega), if_neg (by omega), if_neg (by omega),
    List.all_eq_true]
  constructor
  · intro h d h3 hds hdodd hdvd
    have hmem : d ∈ List.range' 3 ((isqrt n - 1) / 2) 2 := by
      rw [List.mem_range']
      refine ⟨(d - 3) / 2, ?_, ?_⟩
      · rw [isqrt_eq_sqrt]
        omega
      · omega
    have hne := h d hmem
    simp only [bne_iff_ne, ne_eq] at hne
    exact hne (Nat.mod_eq_zero_of_dvd hdvd)
  · intro h d hmem
    rw [List.mem_range'] at hmem
    rcases hmem with ⟨i, hi, rfl⟩
    simp only [bne_iff_ne, ne_eq]
    intro hmod0
    rw [isqrt_eq_sqrt] at hi
    refine h (3 + 2 * i) (by omega) (by omega) (by omega)
      (Nat.dvd_of_mod_eq_zero hmod0)

theorem is_prime_iff_prime (n : Nat) : is_prime n = true ↔ Nat.Prime n := by
  rcases Nat.lt_or_ge n 2 with h | h
  · rw [show is_prime n = false from by unfold is_prime; rw [if_pos h]]
    simp only [Bool.false_eq_true, false_iff]
    intro hp
    exact absurd hp.two_le (by omega)
  · by_cases he : n = 2
    · subst he
      exact ⟨fun _ => Nat.prime_two, fun _ => rfl⟩
    · have h2 : 2 < n := by omega
      by_cases hev : n % 2 = 0
      · have hf : is_prime n = false := by
          unfold is_prime
          rw [if_neg (by omega), if_neg he, if_pos hev]
        rw [hf]
        simp only [Bool.false_eq_true, false_iff]
        intro hp
        rcases (hp.eq_one_or_self_of_dvd 2 (Nat.dvd_of_mod_eq_zero hev))
          with h1 | hself
        · omega
        · omega
      · have hodd : n % 2 = 1 := by omega
        rw [is_prime_odd_divisor_iff h2 hodd, Nat.prime_def_le_sqrt]
        constructor
        · intro hchk
          refine ⟨by omega, ?_⟩
          intro m hm hms hdvd
          by_cases hmev : m % 2 = 0
          · have h2n : (2 : Nat) ∣ n :=
              Nat.dvd_trans (Nat.dvd_of_mod_eq_zero hmev) hdvd
            have := Nat.mod_eq_zero_of_dvd h2n
            omega
          · exact hchk m (by omega) hms (by omega) hdvd
        · intro hp d h3 hds hdodd
          exact hp.2 d (by omega) hds

/-- C5: is_prime agrees with mathematical primality via trial division up
to the square root of n: 0 and 1 are not prime, 2 is prime, every even
n > 2 is not prime, and an odd n > 2 is prime exactly when it has no odd
divisor d with 3 ≤ d ≤ √n. -/
theorem is_prime_agrees_with_primality :
    is_prime 0 = false ∧ is_prime 1 = false ∧ is_prime 2 = true ∧
    (∀ n, 2 < n → n % 2 = 0 → is_prime n = false) ∧
    (∀ n, 2 < n → n % 2 = 1 →
      (is_prime n = true ↔
        ∀ d, 3 ≤ d → d ≤ Nat.sqrt n → d % 2 = 1 → ¬ d ∣ n)) ∧
    (∀ n, is_prime n = true ↔ Nat.Prime n) := by
  refine ⟨rfl, rfl, rfl, ?_, ?_, is_prime_iff_prime⟩
  · intro n h2 hev
    unfold is_prime
    rw [if_neg (by omega), if_neg (by omega), if_pos hev]
  · intro n h2 hodd
    exact is_prime_odd_divisor_iff h2 hodd

/-- Witness for C5: 97 is accepted (it is prime), 9 is rejected. -/
theorem is_prime_agrees_with_primality_witness :
    is_prime 97 = true ∧ is_prime 9 = false :=
  ⟨(is_prime_agrees_with_primality.2.2.2.2.2 97).mpr (by norm_num),
   Bool.eq_false_iff.mpr (fun ht =>
     (by norm_num : ¬ Nat.Prime 9)
       ((is_prime_agrees_with_primality.2.2.2.2.2 9).mp ht))⟩

/-! ## C4 -/

theorem poolInv_init (N : Nat) (b : Fin N → List String) :
    PoolInv b (initPool N) := by
  constructor
  · intro i
    constructor
    · rintro ⟨rem, hrem⟩
      exact absurd hrem (by simp [initPool])
    · intro h
      exact absurd h (by simp [initPool])
  · refine ⟨[], List.nodup_nil, ?_, ?_⟩
    · intro i
      simp [initPool]
    · simp [initPool]

theorem poolInv_step {N : Nat} {b : Fin N → List String} {s s' : PoolState N}
    (hstep : PoolStep b s s') (hinv : PoolInv b s) : PoolInv b s' := by
  obtain ⟨hlk, ds, hnd, hdone, hfile⟩ := hinv
  cases hstep with
  | acquire i hst hlkn =>
    rw [hlkn] at hfile
    unfold PoolInv writingAt
    dsimp only
    constructor
    · intro j
      by_cases hji : j = i
      · subst hji
        rw [Function.update_same]
        constructor
        · intro _
          rfl
        · intro _
          exact ⟨b j, rfl⟩
      · rw [Function.update_noteq hji]
        constructor
        · rintro ⟨rem, hrem⟩
          have := (hlk j).mp ⟨rem, hrem⟩
          rw [hlkn] at this
          exact absurd this (by simp)
        · intro hj
          exact absurd (Option.some.inj hj) (fun h => hji h.symm)
    · refine ⟨ds, hnd, ?_, ?_⟩
      · intro j
        by_cases hji : j = i
        · subst hji
          rw [Function.update_same]
          constructor
          · intro h
            exact absurd h (by simp)
          · intro hj
            have := (hdone j).mpr hj
            rw [hst] at this
            exact absurd this (by simp)
        · rw [Function.update_noteq hji]
          exact hdone j
      · exact ⟨[], b i, by rw [Function.update_same], by simp, by simp [hfile]⟩
  | write i l rest hst =>
    have hlocki : s.lock = some i := (hlk i).mp ⟨l :: rest, hst⟩
    rw [hlocki] at hfile
    obtain ⟨w, rem0, hw1, hw2, hw3⟩ := hfile
    have hrem0 : rem0 = l :: rest := by
      rw [hst] at hw1
      exact (TStatus.writing.inj hw1).symm
    subst hrem0
    unfold PoolInv writingAt
    dsimp only
    rw [hlocki]
    constructor
    · intro j
      by_cases hji : j = i
      · subst hji
        rw [Function.update_same]
        constructor
        · intro _
          rfl
        · intro _
          exact ⟨rest, rfl⟩
      · rw [Function.update_noteq hji]
        constructor
        · rintro ⟨rem, hrem⟩
          have := (hlk j).mp ⟨rem, hrem⟩
          rw [hlocki] at this
          exact this
        · intro hj
          exact absurd (Option.some.inj hj) (fun h => hji h.symm)
    · refine ⟨ds, hnd, ?_, ?_⟩
      · intro j
        by_cases hji : j = i
        · subst hji
          rw [Function.update_same]
          constructor
          · intro h
            exact absurd h (by simp)
          · intro hj
            have := (hdone j).mpr hj
            rw [hst] at this
            exact absurd this (by simp)
        · rw [Function.update_noteq hji]
          exact hdone j
      · refine ⟨w ++ [l], rest, by rw [Function.update_same], ?_, ?_⟩
        · rw [hw2, List.append_cons]
        · rw [hw3, List.append_assoc (logHeader ++ (ds.map b).flatten)]
  | release i hst =>
    have hlocki : s.lock = some i := (hlk i).mp ⟨[], hst⟩
    rw [hlocki] at hfile
    obtain ⟨w, rem0, hw1, hw2, hw3⟩ := hfile
    have hrem0 : rem0 = [] := by
      rw [hst] at hw1
      exact (TStatus.writing.inj hw1).symm
    subst hrem0
    rw [List.append_nil] at hw2
    unfold PoolInv writingAt
    dsimp only
    constructor
    · intro j
      constructor
      · rintro ⟨rem, hrem⟩
        by_cases hji : j = i
        · subst hji
          rw [Function.update_same] at hrem
          exact absurd hrem (by simp)
        · rw [Function.update_noteq hji] at hrem
          have := (hlk j).mp ⟨rem, hrem⟩
          rw [hlocki] at this
          exact absurd (Option.some.inj this) (fun h => hji h.symm)
      · intro hj
        exact absurd hj (by simp)
    · refine ⟨ds ++ [i], ?_, ?_, ?_⟩
      · have hnotin : i ∉ ds := by
          intro hmem
          have := (hdone i).mpr hmem
          rw [hst] at this
          exact absurd this (by simp)
        simp [List.nodup_append, hnd, hnotin]
      · intro j
        by_cases hji : j = i
        · subst hji
          rw [Function.update_same]
          simp
        · rw [Function.update_noteq hji]
          rw [hdone j]
          simp [hji]
      · rw [hw3, List.map_append, List.flatten_append]
        simp [hw2, List.append_assoc]

theorem poolInv_reach {N : Nat} {b : Fin N → List String} {s : PoolState N}
    (h : Relation.ReflTransGen (PoolStep b) (initPool N) s) : PoolInv b s := by
  induction h with
  | refl => exact poolInv_init N b
  | tail _ hstep ih => exact poolInv_step hstep ih

/-- C4: log appends by concurrent workers are mutually exclusive — in
every state reachable in the writer model at most one worker is inside
the lock-protected write — each worker's reply is the pure function of
its own message alone, and once all N workers are done the log file is
the header followed by the N workers' record blocks, each contiguous and
complete, in some permutation order. -/
theorem concurrent_log_append_safe (N : Nat) (ts : String)
    (m : Fin N → List Char) (rec : Fin N → LogRecord) (cnt : Fin N → Nat)
    (hm : ∀ i, handle_client_v2 ts (m i) = (Reply.count (cnt i), [rec i])) :
    (∀ s : PoolState N,
      Relation.ReflTransGen (PoolStep (fun i => renderRecord (rec i)))
        (initPool N) s →
      (∀ i j, writingAt s i → writingAt s j → i = j) ∧
      ((∀ i, s.st i = TStatus.done) →
        ∃ perm : List (Fin N), perm.Perm (List.finRange N) ∧
          perm.length = N ∧
          s.file = logHeader ++
            (perm.map (fun i => renderRecord (rec i))).flatten)) ∧
    (∀ i, (handle_client_v2 ts (m i)).1 = Reply.count (cnt i)) := by
  constructor
  · intro s hreach
    obtain ⟨hlk, ds, hnd, hdone, hfile⟩ := poolInv_reach hreach
    constructor
    · intro i j hi hj
      have h1 := (hlk i).mp hi
      have h2 := (hlk j).mp hj
      rw [h1] at h2
      exact Option.some.inj h2
    · intro hall
      rcases hlock : s.lock with _ | i
      · rw [hlock] at hfile
        refine ⟨ds, ?_, ?_, hfile⟩
        · rw [List.perm_ext_iff_of_nodup hnd (List.nodup_finRange N)]
          intro a
          simp only [List.mem_finRange, iff_true]
          exact (hdone a).mp (hall a)
        · have hperm : ds.Perm (List.finRange N) := by
            rw [List.perm_ext_iff_of_nodup hnd (List.nodup_finRange N)]
            intro a
            simp only [List.mem_finRange, iff_true]
            exact (hdone a).mp (hall a)
          rw [hperm.length_eq, List.length_finRange]
      · have hw := (hlk i).mpr hlock
        obtain ⟨rem, hrem⟩ := hw
        rw [hall i] at hrem
        exact absurd hrem (by simp)
  · intro i
    rw [hm i]

example :
    ∃ s : PoolState 1,
      Relation.ReflTransGen (PoolStep (fun _ : Fin 1 => ["x"])) (initPool 1) s ∧
      (∀ i, s.st i = TStatus.done) ∧ s.file = logHeader ++ ["x"] := by
  refine ⟨_, Relation.ReflTransGen.head (PoolStep.acquire _ 0 rfl rfl)
      (Relation.ReflTransGen.head (PoolStep.write _ 0 "x" [] (by decide))
        (Relation.ReflTransGen.head (PoolStep.release _ 0 (by decide))
          Relation.ReflTransGen.refl)), by decide, by decide⟩

/-- Witness for C4: two workers handling "hola" and "banana". -/
theorem concurrent_log_append_safe_witness :
    (∀ s : PoolState 2,
      Relation.ReflTransGen (PoolStep (fun i => renderRecord (wrec i)))
        (initPool 2) s →
      (∀ i j, writingAt s i → writingAt s j → i = j) ∧
      ((∀ i, s.st i = TStatus.done) →
        ∃ perm : List (Fin 2), perm.Perm (List.finRange 2) ∧
          perm.length = 2 ∧
          s.file = logHeader ++
            (perm.map (fun i => renderRecord (wrec i))).flatten)) ∧
    (∀ i, (handle_client_v2 "t" (wmsg i)).1 = Reply.count (wcnt i)) :=
  concurrent_log_append_safe 2 "t" wmsg wrec wcnt (by decide)

end TCPServerModel
